import Mathlib

/-!
# The NUS log backend (`log_backend_nus.c`): transfer queue, chunk splitter, transmitter

A shallow embedding of `src/log_backend_nus.c`.

* C objects are plain data: a byte is a `Nat`, a buffer is a `List Nat`, the
  `k_fifo` of `ble_data_t` frames is a `List ble_data_t` (put at the tail, get at the head).
* Machine integers are `Nat` / `Int` with the conversions written out: `size_t` is
  32 bits wide and `int` is 32-bit two's complement (ILP32, the Cortex-M targets
  of the Nordic UART Service), `uint8_t` is `% 256` and `uint16_t` is `% 65536`.
* The two external calls whose outcome the code branches on are oracles:
  `k_malloc` (does the n-th allocation succeed) and `bt_nus_send` (return code of
  the n-th call).  `bt_nus_get_mtu` is a parameter of `send_enabled_cb`, and the
  buffer that `log_backend_std_panic` flushes into `char_out` is a parameter of
  `panic`.
* `char_out` contains a `do ... while` that need not terminate; it is modelled
  with fuel, the number of passes through the loop that are run.  The model
  yields the state reached and the value returned, `none` when the loop is
  still running after that many passes.
-/

namespace LogBackendNus

/-! ## Machine integers -/

/-- Largest value of a 32-bit `int`. -/
def INT_MAX : Nat := 2147483647

/-- Smallest value of a 32-bit `int`. -/
def INT_MIN : Int := -2147483648

/-- Number of values of a 32-bit `size_t` (`SIZE_MAX + 1`). -/
def SIZE_MOD : Nat := 4294967296

/-- Conversion of a `size_t` value to `int` (wraps modulo `2^32`). -/
def to_int (n : Nat) : Int :=
  if n % SIZE_MOD ≤ INT_MAX then ((n % SIZE_MOD : Nat) : Int)
  else ((n % SIZE_MOD : Nat) : Int) - (SIZE_MOD : Int)

/-- Conversion of an `int` value to `size_t` (wraps modulo `2^32`). -/
def to_size_t (i : Int) : Nat := (i % (SIZE_MOD : Int)).toNat

/-- Subtraction on `size_t`: `a - b` modulo `2^32`. -/
def size_t_sub (a b : Nat) : Nat := (a % SIZE_MOD + SIZE_MOD - b % SIZE_MOD) % SIZE_MOD

/-- Conversion to `uint8_t`. -/
def to_uint8 (n : Nat) : Nat := n % 256

/-- Conversion to `uint16_t`. -/
def to_uint16 (n : Nat) : Nat := n % 65536

/-! ## Data model -/

/-- A frame, `struct ble_data_t`: `data` holds the bytes that `memcpy` wrote at the
start of the buffer (the rest of the buffer is never initialised), `len` is the
`uint16_t` length field.  `fifo_reserved` is owned by the kernel queue. -/
structure ble_data_t where
  data : List Nat
  len : Nat
deriving DecidableEq

/-- The file-scope variables of `log_backend_nus.c` that the modelled functions
read or write. -/
structure State where
  in_panic : Bool
  current_conn : Option Nat
  auth_conn : Option Nat
  bt_nus_mtu : Nat
  ble_nus_connected : Int
  fifo_ble_tx_data : List ble_data_t
deriving DecidableEq

/-- The values the variables have after static initialisation. -/
def State.init : State :=
  { in_panic := false, current_conn := none, auth_conn := none,
    bt_nus_mtu := 0, ble_nus_connected := 0, fifo_ble_tx_data := [] }

/-- The kernel call `k_fifo_put`: the frame goes to the tail of the queue. -/
def k_fifo_put (fifo : List ble_data_t) (buf : ble_data_t) : List ble_data_t :=
  fifo ++ [buf]

/-- The kernel call `k_fifo_get` with `K_FOREVER`: the head of the queue, `none`
while the queue is empty (the caller stays blocked). -/
def k_fifo_get : List ble_data_t → Option (ble_data_t × List ble_data_t)
  | [] => none
  | buf :: rest => some (buf, rest)

/-! ## Producer side -/

/-- The function `append_data_to_fifo`: `k_malloc` tells whether the allocation succeeded.
On failure nothing is queued; in both cases `length` is returned (as `int`). -/
def append_data_to_fifo (k_malloc : Bool) (fifo : List ble_data_t) (data : List Nat)
    (length : Nat) : List ble_data_t × Int :=
  if !k_malloc then
    (fifo, to_int length)
  else
    (k_fifo_put fifo { data := data.take length, len := to_uint16 length }, to_int length)

/-- The `do ... while (length != 0)` loop of `char_out`, run for at most `fuel`
passes.  `n` counts the calls of `k_malloc` made so far.  The result is the
queue reached and whether the loop has exited. -/
def char_out_loop (bt_nus_mtu : Nat) (k_malloc : Nat → Bool) :
    Nat → Nat → List ble_data_t → List Nat → Nat → List ble_data_t × Bool
  | 0, _, fifo, _, _ => (fifo, false)
  | fuel + 1, n, fifo, data, length =>
    let r := append_data_to_fifo (k_malloc n) fifo data
      (if length > bt_nus_mtu then bt_nus_mtu else length)
    let processed : Int := r.2
    let length := size_t_sub length (to_size_t processed)
    let data := data.drop processed.toNat
    if length ≠ 0 then char_out_loop bt_nus_mtu k_malloc fuel (n + 1) r.1 data length
    else (r.1, true)

/-- The function `char_out`, the byte sink handed to the log formatter, its loop run for at
most `fuel` passes.  The result is the state reached and the `int` returned,
`none` when the function has not returned yet. -/
def char_out (fuel : Nat) (k_malloc : Nat → Bool) (s : State) (data : List Nat)
    (length : Nat) : State × Option Int :=
  let len_stored := length
  if s.ble_nus_connected > 0 then
    let r := char_out_loop s.bt_nus_mtu k_malloc fuel 0 s.fifo_ble_tx_data data length
    ({ s with fifo_ble_tx_data := r.1 }, if r.2 then some (to_int len_stored) else none)
  else
    (s, some (to_int len_stored))

/-- The function `panic`: it sets `in_panic` and calls
`log_backend_std_panic(&log_output_nus)`.  That call is kernel code outside
this file: it flushes the buffer `nus_output_buf` of the formatter by handing
the bytes pending there to the sink `char_out`, which takes them all in one
call.  `pending` is the buffer handed over, `none` when the flush makes no call
of the sink; `fuel` and `k_malloc` are those of that call of `char_out`.  The
result is the state reached and whether `panic` has returned. -/
def panic (fuel : Nat) (k_malloc : Nat → Bool) (pending : Option (List Nat)) (s : State) :
    State × Bool :=
  let s1 := { s with in_panic := true }
  match pending with
  | none => (s1, true)
  | some data =>
    let r := char_out fuel k_malloc s1 data data.length
    (r.1, r.2.isSome)

/-! ## Link life cycle -/

/-- The callback `connected` keeps a reference to the connection unless `conn_err` is set. -/
def connected (conn : Nat) (conn_err : Nat) (s : State) : State :=
  if conn_err ≠ 0 then s else { s with current_conn := some conn }

/-- The callback `disconnected` drops both references and clears `bt_nus_mtu`. -/
def disconnected (s : State) : State :=
  { s with auth_conn := none, current_conn := none, bt_nus_mtu := 0 }

/-- The type `enum bt_nus_send_status`. -/
inductive bt_nus_send_status where
  | BT_NUS_SEND_STATUS_ENABLED
  | BT_NUS_SEND_STATUS_DISABLED
deriving DecidableEq

/-- The string literal `"NUS Logger Activated"` (20 characters and the
terminating NUL). -/
def activation_msg : List Nat :=
  [78, 85, 83, 32, 76, 111, 103, 103, 101, 114, 32,
   65, 99, 116, 105, 118, 97, 116, 101, 100, 0]

/-- The callback `send_enabled_cb`: `bt_nus_get_mtu` is the `uint32_t` that
`bt_nus_get_mtu(current_conn)` returns, `k_malloc` the outcome of the
allocation of the activation frame. -/
def send_enabled_cb (bt_nus_get_mtu : Nat) (k_malloc : Bool) (status : bt_nus_send_status)
    (s : State) : State :=
  match status with
  | .BT_NUS_SEND_STATUS_ENABLED =>
    let mtu := to_uint8 bt_nus_get_mtu
    let r := append_data_to_fifo k_malloc s.fifo_ble_tx_data activation_msg 20
    { s with bt_nus_mtu := mtu, fifo_ble_tx_data := r.1,
             ble_nus_connected := s.ble_nus_connected + 1 }
  | .BT_NUS_SEND_STATUS_DISABLED =>
    { s with ble_nus_connected := s.ble_nus_connected - 1 }

/-! ## Consumer side -/

/-- The local variable `i` of `ble_logger_thread` together with what the thread
has done so far: `calls` is the number of `bt_nus_send` calls made, `sent` the
frame passed to each of them in order, `freed` the frames handed to `k_free`. -/
structure Thread where
  i : Int
  calls : Nat
  sent : List ble_data_t
  freed : List ble_data_t
deriving DecidableEq

/-- The thread right after `int i = 0;`. -/
def Thread.init : Thread := { i := 0, calls := 0, sent := [], freed := [] }

/-- The loop `while (i < 3 && 0 != bt_nus_send(NULL, buf->data, buf->len)) i++;`
run for at most `turns` tests of its condition.  `bt_nus_send n` is the return
code of the n-th call. -/
def retry_loop_turns (bt_nus_send : Nat → Int) (buf : ble_data_t) : Nat → Thread → Thread
  | 0, t => t
  | turns + 1, t =>
    if t.i < 3 then
      let t1 := { t with calls := t.calls + 1, sent := t.sent ++ [buf] }
      if 0 ≠ bt_nus_send t.calls then
        retry_loop_turns bt_nus_send buf turns { t1 with i := t.i + 1 }
      else t1
    else t

/-- The loop `while (i < 3 && 0 != bt_nus_send(NULL, buf->data, buf->len)) i++;`.
The condition `i < 3` can hold at most `3 - i` times in a row, so that many
turns run the loop to its exit (`retry_loop_unfold` is the loop equation). -/
def retry_loop (bt_nus_send : Nat → Int) (buf : ble_data_t) (t : Thread) : Thread :=
  retry_loop_turns bt_nus_send buf (3 - t.i).toNat t

/-- One turn of the `for (;;)` loop of `ble_logger_thread`: `none` while the
thread is blocked in `k_fifo_get`. -/
def ble_logger_thread_iter (bt_nus_send : Nat → Int)
    (x : List ble_data_t × Thread) : Option (List ble_data_t × Thread) :=
  match k_fifo_get x.1 with
  | none => none
  | some (buf, rest) =>
    let t := retry_loop bt_nus_send buf x.2
    some (rest, { t with i := 0, freed := t.freed ++ [buf] })

/-- What can happen to the transfer queue: some producer (`char_out` in one
pass of its loop, or `send_enabled_cb`) calls `append_data_to_fifo`, or the
transmitter thread takes one turn of its loop. -/
inductive Event where
  | enqueue (k_malloc : Bool) (data : List Nat) (length : Nat)
  | transmit

/-- The effect of one event on the queue and the transmitter thread.  A thread
that finds the queue empty stays blocked in `k_fifo_get`. -/
def step (bt_nus_send : Nat → Int) (x : List ble_data_t × Thread) :
    Event → List ble_data_t × Thread
  | .enqueue k_malloc data length => ((append_data_to_fifo k_malloc x.1 data length).1, x.2)
  | .transmit =>
    match ble_logger_thread_iter bt_nus_send x with
    | none => x
    | some y => y

/-- A sequence of events, from the left. -/
def run (bt_nus_send : Nat → Int) (es : List Event) (x : List ble_data_t × Thread) :
    List ble_data_t × Thread :=
  es.foldl (step bt_nus_send) x

/-! ## Reference notions used to state the properties -/

/-- The number of chunks `ceil(L / M)`. -/
def chunk_count (L M : Nat) : Nat := (L + M - 1) / M

/-- The `k`-th chunk of the partition of `data` into runs of `M` bytes: the
bytes at offsets `k * M`, ..., `k * M + M - 1` that exist. -/
def nth_chunk (M : Nat) (data : List Nat) (k : Nat) : List Nat := (data.drop (k * M)).take M

/-- The frame that carries a chunk: the chunk as payload, its length as `len`. -/
def frame_of (chunk : List Nat) : ble_data_t := { data := chunk, len := chunk.length }

/-- The frames that the loop queues for a byte run: chunk `k` is queued when
the `k`-th allocation (the `n + k`-th overall) succeeds. -/
def queued_frames (M : Nat) (k_malloc : Nat → Bool) (n : Nat) (data : List Nat) :
    List ble_data_t :=
  ((List.range (chunk_count data.length M)).filter (fun k => k_malloc (n + k))).map
    (fun k => frame_of (nth_chunk M data k))

/-- The number of `bt_nus_send` calls on a frame whose first call is call `n`:
the position (from 1) of the first call that returns 0, and 3 when none of the
first three does, that is `min(3, index of the first successful attempt)`. -/
def attempts (bt_nus_send : Nat → Int) (n : Nat) : Nat :=
  if bt_nus_send n = 0 then 1 else if bt_nus_send (n + 1) = 0 then 2 else 3

/-- The frames that a sequence of events puts on the queue, in the order of the
events: one for each `append_data_to_fifo` whose allocation succeeds. -/
def enqueued : List Event → List ble_data_t
  | [] => []
  | .enqueue true data length :: es =>
    { data := data.take length, len := to_uint16 length } :: enqueued es
  | _ :: es => enqueued es

/-- The calls of `bt_nus_send` are grouped frame by frame: they are, in order,
between one and three calls on each frame freed so far, in the order in which
the frames were freed, and `i` is back at 0. -/
def Thread.grouped (t : Thread) : Prop :=
  t.i = 0 ∧
  ∃ counts : List Nat, counts.length = t.freed.length ∧
    (∀ c ∈ counts, 1 ≤ c ∧ c ≤ 3) ∧
    t.sent = (List.zipWith List.replicate counts t.freed).flatten

/-! ## Facts about the machine integers -/

theorem to_int_of_le {n : Nat} (h : n ≤ INT_MAX) : to_int n = (n : Int) := by
  unfold to_int
  have h1 : n % SIZE_MOD = n := Nat.mod_eq_of_lt (by unfold INT_MAX at h; unfold SIZE_MOD; omega)
  rw [h1, if_pos h]

theorem to_size_t_to_int {n : Nat} (h : n < SIZE_MOD) : to_size_t (to_int n) = n := by
  unfold to_size_t to_int
  have h1 : n % SIZE_MOD = n := Nat.mod_eq_of_lt h
  rw [h1]
  unfold SIZE_MOD INT_MAX at *
  split <;> omega

theorem size_t_sub_of_le {a b : Nat} (hb : b ≤ a) (ha : a < SIZE_MOD) :
    size_t_sub a b = a - b := by
  unfold size_t_sub
  unfold SIZE_MOD at *
  omega

/-! ## The chunking loop -/

theorem chunk_count_of_le {L M : Nat} (h1 : 1 ≤ L) (h2 : L ≤ M) : chunk_count L M = 1 := by
  unfold chunk_count
  have hlt : L + M - 1 < 2 * M := by omega
  have hge : M ≤ L + M - 1 := by omega
  have hM : 0 < M := by omega
  have a : (L + M - 1) / M < 2 := (Nat.div_lt_iff_lt_mul hM).2 hlt
  have b : 1 ≤ (L + M - 1) / M := (Nat.le_div_iff_mul_le hM).2 (by omega)
  omega

theorem chunk_count_of_gt {L M : Nat} (hM : 1 ≤ M) (h : M < L) :
    chunk_count L M = chunk_count (L - M) M + 1 := by
  unfold chunk_count
  have e : L + M - 1 = (L - M + M - 1) + M := by omega
  rw [e, Nat.add_div_right _ (by omega : 0 < M)]

theorem nth_chunk_succ (M : Nat) (data : List Nat) (k : Nat) :
    nth_chunk M data (k + 1) = nth_chunk M (data.drop M) k := by
  unfold nth_chunk
  rw [List.drop_drop]
  congr 2
  ring

theorem queued_frames_of_le (M : Nat) (k_malloc : Nat → Bool) (n : Nat) (data : List Nat)
    (h1 : 1 ≤ data.length) (h2 : data.length ≤ M) :
    queued_frames M k_malloc n data = if k_malloc n then [frame_of data] else [] := by
  unfold queued_frames
  rw [chunk_count_of_le h1 h2]
  have hc : nth_chunk M data 0 = data := by
    unfold nth_chunk
    simp [List.take_of_length_le h2]
  cases hk : k_malloc n <;> simp [List.range_succ, hk, hc]

theorem queued_frames_of_gt (M : Nat) (k_malloc : Nat → Bool) (n : Nat) (data : List Nat)
    (hM : 1 ≤ M) (h : M < data.length) :
    queued_frames M k_malloc n data =
      (if k_malloc n then [frame_of (data.take M)] else []) ++
        queued_frames M k_malloc (n + 1) (data.drop M) := by
  unfold queued_frames
  rw [chunk_count_of_gt hM h, List.length_drop, List.range_succ_eq_map]
  have hc : nth_chunk M data 0 = data.take M := by
    unfold nth_chunk
    simp
  have hf : (fun k => k_malloc (n + k)) ∘ Nat.succ = fun k => k_malloc (n + 1 + k) := by
    funext k
    simp [Nat.succ_eq_add_one, Nat.add_comm, Nat.add_left_comm]
  cases hk : k_malloc n <;>
    simp [List.filter_cons, hk, hc, List.filter_map, List.map_map, hf, Function.comp_def,
      nth_chunk_succ]

/-- One pass through the body of the loop when the chunk handed to
`append_data_to_fifo` has `c ≤ 255` bytes, none more than remain. -/
theorem char_out_loop_step (M : Nat) (k_malloc : Nat → Bool) (fuel n : Nat)
    (fifo : List ble_data_t) (data : List Nat) (length c : Nat)
    (hc : (if length > M then M else length) = c) (hc255 : c ≤ 255) (hcl : c ≤ length)
    (hl : length < SIZE_MOD) :
    char_out_loop M k_malloc (fuel + 1) n fifo data length =
      if length - c ≠ 0 then
        char_out_loop M k_malloc fuel (n + 1)
          (if k_malloc n then fifo ++ [{ data := data.take c, len := c }] else fifo)
          (data.drop c) (length - c)
      else
        (if k_malloc n then fifo ++ [{ data := data.take c, len := c }] else fifo, true) := by
  have hci : to_int c = (c : Int) := to_int_of_le (by unfold INT_MAX; omega)
  have hcs : to_size_t (c : Int) = c := by
    rw [← hci]; exact to_size_t_to_int (by unfold SIZE_MOD; omega)
  have h16 : to_uint16 c = c := by unfold to_uint16; omega
  rw [char_out_loop]
  simp only [hc]
  cases hk : k_malloc n <;>
    simp [append_data_to_fifo, k_fifo_put, hci, hcs, h16, size_t_sub_of_le hcl hl]

/-- With a chunk size between 1 and 255 the loop exits after `ceil(L / M)`
passes and has queued exactly the chunks whose allocation succeeded. -/
theorem char_out_loop_spec (M : Nat) (k_malloc : Nat → Bool) (hM1 : 1 ≤ M) (hM : M ≤ 255) :
    ∀ (fuel n : Nat) (fifo : List ble_data_t) (data : List Nat),
      1 ≤ data.length → data.length < SIZE_MOD → chunk_count data.length M ≤ fuel →
      char_out_loop M k_malloc fuel n fifo data data.length =
        (fifo ++ queued_frames M k_malloc n data, true) := by
  intro fuel
  induction fuel with
  | zero =>
    intro n fifo data h1 _ hf
    by_cases h : data.length ≤ M
    · rw [chunk_count_of_le h1 h] at hf; omega
    · rw [chunk_count_of_gt hM1 (by omega)] at hf; omega
  | succ fuel ih =>
    intro n fifo data h1 hl hf
    by_cases h : data.length ≤ M
    · have hc : (if data.length > M then M else data.length) = data.length := by
        rw [if_neg (by omega)]
      rw [char_out_loop_step M k_malloc fuel n fifo data data.length data.length hc
        (by omega) (le_refl _) hl, queued_frames_of_le M k_malloc n data h1 h]
      cases hk : k_malloc n <;> simp [frame_of]
    · have hgt : M < data.length := by omega
      have hc : (if data.length > M then M else data.length) = M := by
        rw [if_pos hgt]
      rw [char_out_loop_step M k_malloc fuel n fifo data data.length M hc hM (by omega) hl,
        if_pos (by omega)]
      have hlen : (data.drop M).length = data.length - M := List.length_drop M data
      rw [← hlen]
      rw [ih (n + 1) _ (data.drop M) (by omega) (by omega)
        (by rw [chunk_count_of_gt hM1 hgt] at hf; rw [hlen]; omega),
        queued_frames_of_gt M k_malloc n data hM1 hgt]
      have hm : (data.take M).length = M := by
        rw [List.length_take]; omega
      cases hk : k_malloc n <;> simp [frame_of, hm]

/-! ## Properties of the partition into chunks -/

theorem le_chunk_count_mul (L M : Nat) (hM : 1 ≤ M) : L ≤ chunk_count L M * M := by
  unfold chunk_count
  have h := Nat.lt_mul_div_succ (L + M - 1) (by omega : 0 < M)
  have e : M * ((L + M - 1) / M + 1) = (L + M - 1) / M * M + M := by ring
  omega

theorem flatten_nth_chunks (M : Nat) :
    ∀ (c : Nat) (data : List Nat), data.length ≤ c * M →
      ((List.range c).map (nth_chunk M data)).flatten = data := by
  intro c
  induction c with
  | zero =>
    intro data h
    have : data = [] := List.length_eq_zero.1 (by omega)
    simp [this]
  | succ c ih =>
    intro data h
    have hd : (data.drop M).length ≤ c * M := by
      rw [List.length_drop]
      have e : (c + 1) * M = c * M + M := by ring
      omega
    have h0 : nth_chunk M data 0 = data.take M := by
      unfold nth_chunk
      simp
    have hs : (nth_chunk M data) ∘ Nat.succ = nth_chunk M (data.drop M) := by
      funext k
      exact nth_chunk_succ M data k
    rw [List.range_succ_eq_map, List.map_cons, List.map_map, hs, List.flatten_cons, ih _ hd, h0,
      List.take_append_drop]

theorem length_nth_chunk_le (M : Nat) (data : List Nat) (k : Nat) :
    (nth_chunk M data k).length ≤ M := by
  unfold nth_chunk
  rw [List.length_take]
  exact Nat.min_le_left _ _

theorem length_nth_chunk_of_lt (M : Nat) (data : List Nat) (k : Nat) (hM : 1 ≤ M)
    (hk : k + 1 < chunk_count data.length M) : (nth_chunk M data k).length = M := by
  unfold nth_chunk
  rw [List.length_take, List.length_drop]
  unfold chunk_count at hk
  have h2 : (k + 2) * M ≤ data.length + M - 1 :=
    (Nat.le_div_iff_mul_le (by omega : 0 < M)).1 hk
  have e : (k + 2) * M = k * M + M + M := by ring
  omega

theorem queued_frames_all (M : Nat) (n : Nat) (data : List Nat) :
    queued_frames M (fun _ => true) n data =
      (List.range (chunk_count data.length M)).map (fun k => frame_of (nth_chunk M data k)) := by
  unfold queued_frames
  simp

/-- What `char_out` does on a connected link with a chunk size between 1 and
255: it returns, the queue has grown by `queued_frames`, nothing else changed. -/
theorem char_out_connected (fuel : Nat) (k_malloc : Nat → Bool) (s : State) (data : List Nat)
    (hconn : s.ble_nus_connected > 0) (hM1 : 1 ≤ s.bt_nus_mtu) (hM : s.bt_nus_mtu ≤ 255)
    (hL1 : 1 ≤ data.length) (hL : data.length < SIZE_MOD)
    (hfuel : chunk_count data.length s.bt_nus_mtu ≤ fuel) :
    char_out fuel k_malloc s data data.length =
      ({ s with fifo_ble_tx_data :=
            s.fifo_ble_tx_data ++ queued_frames s.bt_nus_mtu k_malloc 0 data },
        some (to_int data.length)) := by
  unfold char_out
  simp only [hconn, if_true]
  rw [char_out_loop_spec s.bt_nus_mtu k_malloc hM1 hM fuel 0 _ data hL1 hL hfuel]
  simp

/-- With a chunk size of 0 and bytes to write the loop never exits: after any
number of passes it is still running, and each pass whose allocation succeeds
has queued a frame without payload. -/
theorem char_out_loop_mtu_zero (k_malloc : Nat → Bool) :
    ∀ (fuel n : Nat) (fifo : List ble_data_t) (data : List Nat) (length : Nat),
      1 ≤ length → length < SIZE_MOD →
      char_out_loop 0 k_malloc fuel n fifo data length =
        (fifo ++ ((List.range fuel).filter (fun k => k_malloc (n + k))).map
          (fun _ => ({ data := [], len := 0 } : ble_data_t)), false) := by
  intro fuel
  induction fuel with
  | zero => intro n fifo data length _ _; simp [char_out_loop]
  | succ fuel ih =>
    intro n fifo data length h1 hl
    have hc : (if length > 0 then 0 else length) = 0 := by
      rw [if_pos (by omega)]
    rw [char_out_loop_step 0 k_malloc fuel n fifo data length 0 hc (by omega) (by omega) hl,
      if_pos (by omega), Nat.sub_zero, ih (n + 1) _ _ length h1 hl, List.range_succ_eq_map]
    have hf : (fun k => k_malloc (n + k)) ∘ Nat.succ = fun k => k_malloc (n + 1 + k) := by
      funext k
      simp [Nat.succ_eq_add_one, Nat.add_comm, Nat.add_left_comm]
    cases hk : k_malloc n <;>
      simp [List.filter_cons, hk, List.filter_map, hf, Function.comp_def]

/-- Whatever the chunk size and however long the loop runs, it only adds
frames at the tail of the queue, each with `len` at most the chunk size. -/
theorem char_out_loop_len_le (M : Nat) (k_malloc : Nat → Bool) :
    ∀ (fuel n : Nat) (fifo : List ble_data_t) (data : List Nat) (length : Nat),
      ∃ fs : List ble_data_t,
        (char_out_loop M k_malloc fuel n fifo data length).1 = fifo ++ fs ∧
        ∀ f ∈ fs, f.len ≤ M := by
  intro fuel
  induction fuel with
  | zero => intro n fifo data length; exact ⟨[], by simp [char_out_loop], by simp⟩
  | succ fuel ih =>
    intro n fifo data length
    have hle : to_uint16 (if length > M then M else length) ≤ M := by
      unfold to_uint16
      split <;> omega
    rw [char_out_loop]
    generalize (if length > M then M else length) = c at hle
    obtain ⟨fs, h1, h2⟩ := ih (n + 1) (append_data_to_fifo (k_malloc n) fifo data c).1
      (data.drop (append_data_to_fifo (k_malloc n) fifo data c).2.toNat)
      (size_t_sub length (to_size_t (append_data_to_fifo (k_malloc n) fifo data c).2))
    have hput : ∃ gs : List ble_data_t,
        (append_data_to_fifo (k_malloc n) fifo data c).1 = fifo ++ gs ∧ ∀ f ∈ gs, f.len ≤ M := by
      cases hk : k_malloc n
      · exact ⟨[], by simp [append_data_to_fifo], by simp⟩
      · refine ⟨[{ data := data.take c, len := to_uint16 c }],
          by simp [append_data_to_fifo, k_fifo_put], ?_⟩
        intro f hf
        rw [List.mem_singleton] at hf
        subst hf
        exact hle
    obtain ⟨gs, h3, h4⟩ := hput
    by_cases hz : size_t_sub length
        (to_size_t (append_data_to_fifo (k_malloc n) fifo data c).2) ≠ 0
    · rw [if_pos hz]
      refine ⟨gs ++ fs, ?_, ?_⟩
      · rw [h1, h3, List.append_assoc]
      · intro f hf
        rcases List.mem_append.1 hf with h | h
        · exact h4 f h
        · exact h2 f h
    · rw [if_neg hz]
      exact ⟨gs, h3, h4⟩

/-- The effect of `char_out` on a connected link with `bt_nus_mtu = 0` and bytes to write. -/
theorem char_out_mtu_zero (fuel : Nat) (k_malloc : Nat → Bool) (s : State) (data : List Nat)
    (length : Nat) (hconn : s.ble_nus_connected > 0) (hm : s.bt_nus_mtu = 0)
    (h1 : 1 ≤ length) (hl : length < SIZE_MOD) :
    char_out fuel k_malloc s data length =
      ({ s with
          fifo_ble_tx_data :=
            s.fifo_ble_tx_data ++
              ((List.range fuel).filter (fun k => k_malloc k)).map
                (fun _ => ({ data := [], len := 0 } : ble_data_t)) },
        none) := by
  unfold char_out
  simp only [hconn, if_true, hm]
  rw [char_out_loop_mtu_zero k_malloc fuel 0 _ data length h1 hl]
  simp

/-- The function `char_out` changes the queue and nothing else. -/
theorem char_out_fields (fuel : Nat) (k_malloc : Nat → Bool) (s : State) (data : List Nat)
    (length : Nat) :
    (char_out fuel k_malloc s data length).1.in_panic = s.in_panic ∧
    (char_out fuel k_malloc s data length).1.bt_nus_mtu = s.bt_nus_mtu ∧
    (char_out fuel k_malloc s data length).1.ble_nus_connected = s.ble_nus_connected ∧
    (char_out fuel k_malloc s data length).1.current_conn = s.current_conn ∧
    (char_out fuel k_malloc s data length).1.auth_conn = s.auth_conn := by
  unfold char_out
  by_cases h : s.ble_nus_connected > 0 <;> simp [h]

/-- The function `panic` sets `in_panic` and, through the flush, changes the
queue; it changes nothing else. -/
theorem panic_fields (fuel : Nat) (k_malloc : Nat → Bool) (pending : Option (List Nat))
    (s : State) :
    (panic fuel k_malloc pending s).1.in_panic = true ∧
    (panic fuel k_malloc pending s).1.bt_nus_mtu = s.bt_nus_mtu ∧
    (panic fuel k_malloc pending s).1.ble_nus_connected = s.ble_nus_connected ∧
    (panic fuel k_malloc pending s).1.current_conn = s.current_conn ∧
    (panic fuel k_malloc pending s).1.auth_conn = s.auth_conn := by
  cases pending with
  | none => exact ⟨rfl, rfl, rfl, rfl, rfl⟩
  | some data =>
    obtain ⟨h1, h2, h3, h4, h5⟩ :=
      char_out_fields fuel k_malloc { s with in_panic := true } data data.length
    exact ⟨h1, h2, h3, h4, h5⟩

/-- In every state and for every input, the frames that `char_out` adds to the
queue (however long its loop runs) have `len` at most `bt_nus_mtu`. -/
theorem char_out_len_le (fuel : Nat) (k_malloc : Nat → Bool) (s : State) (data : List Nat)
    (length : Nat) :
    ∃ fs : List ble_data_t,
      (char_out fuel k_malloc s data length).1.fifo_ble_tx_data = s.fifo_ble_tx_data ++ fs ∧
      ∀ f ∈ fs, f.len ≤ s.bt_nus_mtu := by
  unfold char_out
  by_cases h : s.ble_nus_connected > 0
  · simp only [h, if_true]
    exact char_out_loop_len_le s.bt_nus_mtu k_malloc fuel 0 s.fifo_ble_tx_data data length
  · simp only [h, if_false]
    exact ⟨[], by simp, by simp⟩

/-- The frames that the flush of `panic` adds to the queue have `len` at most
`bt_nus_mtu`. -/
theorem panic_len_le (fuel : Nat) (k_malloc : Nat → Bool) (pending : Option (List Nat))
    (s : State) :
    ∃ fs : List ble_data_t,
      (panic fuel k_malloc pending s).1.fifo_ble_tx_data = s.fifo_ble_tx_data ++ fs ∧
      ∀ f ∈ fs, f.len ≤ s.bt_nus_mtu := by
  cases pending with
  | none => exact ⟨[], by simp [panic], by simp⟩
  | some data =>
    exact char_out_len_le fuel k_malloc { s with in_panic := true } data data.length

/-- When the effective payload size reported lies between 20 and 255, the
activation frame that `send_enabled_cb` adds is within the size it stores. -/
theorem activation_len_le (p : Nat) (ok : Bool) (s : State) (h20 : 20 ≤ p) (h255 : p ≤ 255) :
    ∃ gs : List ble_data_t,
      (send_enabled_cb p ok .BT_NUS_SEND_STATUS_ENABLED s).fifo_ble_tx_data =
        s.fifo_ble_tx_data ++ gs ∧
      ∀ f ∈ gs, f.len ≤ (send_enabled_cb p ok .BT_NUS_SEND_STATUS_ENABLED s).bt_nus_mtu := by
  have hm : (send_enabled_cb p ok .BT_NUS_SEND_STATUS_ENABLED s).bt_nus_mtu = p := by
    show to_uint8 p = p
    unfold to_uint8
    omega
  rw [hm]
  cases ok
  · exact ⟨[], by simp [send_enabled_cb, append_data_to_fifo], by simp⟩
  · refine ⟨[{ data := activation_msg.take 20, len := 20 }],
      by simp [send_enabled_cb, append_data_to_fifo, k_fifo_put, to_uint16], ?_⟩
    intro f hf
    rw [List.mem_singleton] at hf
    subst hf
    exact h20

/-! ## The claims -/

/-- C1 (chunking correctness).  On a connected link (`ble_nus_connected > 0`)
with `bt_nus_mtu = M`, `1 ≤ M`, and every allocation succeeding, `char_out` on a
byte run of `L ≥ 1` bytes returns and appends, at the tail of the queue,
exactly `ceil(L / M)` frames: frame `k` carries the bytes at offsets `k * M ...`
of the run, the payloads (first `len` bytes of each frame) concatenate to the
run, every frame has `len ≤ M` and every frame but the last has `len = M`.
`M ≤ 255` and `L < 2^32` are the ranges of `uint8_t` and `size_t`. -/
theorem char_out_chunking (fuel : Nat) (s : State) (data : List Nat)
    (hconn : s.ble_nus_connected > 0) (hM1 : 1 ≤ s.bt_nus_mtu) (hM : s.bt_nus_mtu ≤ 255)
    (hL1 : 1 ≤ data.length) (hL : data.length < SIZE_MOD)
    (hfuel : chunk_count data.length s.bt_nus_mtu ≤ fuel) :
    ∃ (s1 : State) (ret : Int) (fs : List ble_data_t),
      char_out fuel (fun _ => true) s data data.length = (s1, some ret) ∧
      s1.fifo_ble_tx_data = s.fifo_ble_tx_data ++ fs ∧
      fs = (List.range (chunk_count data.length s.bt_nus_mtu)).map
        (fun k => frame_of (nth_chunk s.bt_nus_mtu data k)) ∧
      fs.length = (data.length + s.bt_nus_mtu - 1) / s.bt_nus_mtu ∧
      (fs.map (fun f => f.data.take f.len)).flatten = data ∧
      (∀ f ∈ fs, f.len ≤ s.bt_nus_mtu) ∧
      (∀ f ∈ fs.dropLast, f.len = s.bt_nus_mtu) := by
  refine ⟨_, _, _, char_out_connected fuel _ s data hconn hM1 hM hL1 hL hfuel, rfl,
    queued_frames_all _ _ _, ?_, ?_, ?_, ?_⟩
  · rw [queued_frames_all]
    simp [chunk_count]
  · rw [queued_frames_all, List.map_map]
    have hf : ((fun f : ble_data_t => f.data.take f.len) ∘
        fun k => frame_of (nth_chunk s.bt_nus_mtu data k)) = nth_chunk s.bt_nus_mtu data := by
      funext k
      simp [frame_of]
    rw [hf]
    exact flatten_nth_chunks _ _ _ (le_chunk_count_mul _ _ hM1)
  · intro f hf
    rw [queued_frames_all, List.mem_map] at hf
    obtain ⟨k, _, rfl⟩ := hf
    exact length_nth_chunk_le _ _ _
  · intro f hf
    rw [queued_frames_all] at hf
    obtain ⟨c, hc⟩ : ∃ c, chunk_count data.length s.bt_nus_mtu = c + 1 := by
      have := le_chunk_count_mul data.length s.bt_nus_mtu hM1
      rcases hcc : chunk_count data.length s.bt_nus_mtu with _ | c
      · rw [hcc] at this; omega
      · exact ⟨c, rfl⟩
    rw [hc, List.range_succ, List.map_append, List.map_singleton, List.dropLast_concat,
      List.mem_map] at hf
    obtain ⟨k, hk, rfl⟩ := hf
    rw [List.mem_range] at hk
    exact length_nth_chunk_of_lt _ _ _ hM1 (by omega)

/-- C1 at the state reached from start-up by `send_enabled_cb` with an effective
MTU of 23, for the 50-byte run `0 .. 49`: three frames, of 23, 23 and 4 bytes,
behind the activation frame. -/
theorem char_out_chunking_witness :
    ((send_enabled_cb 23 true .BT_NUS_SEND_STATUS_ENABLED State.init).ble_nus_connected > 0 ∧
      (send_enabled_cb 23 true .BT_NUS_SEND_STATUS_ENABLED State.init).bt_nus_mtu = 23 ∧
      (List.range 50).length = 50) ∧
    (∃ (s1 : State) (ret : Int) (fs : List ble_data_t),
      char_out 3 (fun _ => true)
        (send_enabled_cb 23 true .BT_NUS_SEND_STATUS_ENABLED State.init)
        (List.range 50) (List.range 50).length = (s1, some ret) ∧
      s1.fifo_ble_tx_data =
        (send_enabled_cb 23 true .BT_NUS_SEND_STATUS_ENABLED State.init).fifo_ble_tx_data ++ fs ∧
      fs = (List.range (chunk_count (List.range 50).length
          (send_enabled_cb 23 true .BT_NUS_SEND_STATUS_ENABLED State.init).bt_nus_mtu)).map
        (fun k => frame_of (nth_chunk
          (send_enabled_cb 23 true .BT_NUS_SEND_STATUS_ENABLED State.init).bt_nus_mtu
          (List.range 50) k)) ∧
      fs.length = ((List.range 50).length +
        (send_enabled_cb 23 true .BT_NUS_SEND_STATUS_ENABLED State.init).bt_nus_mtu - 1) /
        (send_enabled_cb 23 true .BT_NUS_SEND_STATUS_ENABLED State.init).bt_nus_mtu ∧
      (fs.map (fun f => f.data.take f.len)).flatten = List.range 50 ∧
      (∀ f ∈ fs, f.len ≤
        (send_enabled_cb 23 true .BT_NUS_SEND_STATUS_ENABLED State.init).bt_nus_mtu) ∧
      (∀ f ∈ fs.dropLast, f.len =
        (send_enabled_cb 23 true .BT_NUS_SEND_STATUS_ENABLED State.init).bt_nus_mtu)) ∧
    (char_out 3 (fun _ => true)
        (send_enabled_cb 23 true .BT_NUS_SEND_STATUS_ENABLED State.init)
        (List.range 50) 50).1.fifo_ble_tx_data.map (fun f => f.len) = [20, 23, 23, 4] :=
  ⟨by decide,
   char_out_chunking 3 (send_enabled_cb 23 true .BT_NUS_SEND_STATUS_ENABLED State.init)
    (List.range 50) (by decide) (by decide) (by decide) (by decide) (by decide) (by decide),
   by decide⟩

/-- C2 (allocation failure).  On a connected link with `bt_nus_mtu = M`,
`1 ≤ M`, for a byte run of `L ≥ 1` bytes and every pattern `k_malloc` of
allocation outcomes, `char_out` returns, the frames it appends are, in order,
the chunks `k` of the partition of the run into `M`-byte chunks with
`k_malloc k` true (chunk `k` always starts at offset `k * M`), and the value
returned stands for `L`: converted back to `size_t`, as the caller's
`len -= processed` does, it is `L`, and it is the integer `L` whenever `L` fits
the return type `int`. -/
theorem char_out_allocation_failure (fuel : Nat) (k_malloc : Nat → Bool) (s : State)
    (data : List Nat)
    (hconn : s.ble_nus_connected > 0) (hM1 : 1 ≤ s.bt_nus_mtu) (hM : s.bt_nus_mtu ≤ 255)
    (hL1 : 1 ≤ data.length) (hL : data.length < SIZE_MOD)
    (hfuel : chunk_count data.length s.bt_nus_mtu ≤ fuel) :
    ∃ (s1 : State) (ret : Int),
      char_out fuel k_malloc s data data.length = (s1, some ret) ∧
      s1.fifo_ble_tx_data = s.fifo_ble_tx_data ++
        ((List.range (chunk_count data.length s.bt_nus_mtu)).filter (fun k => k_malloc k)).map
          (fun k => frame_of (nth_chunk s.bt_nus_mtu data k)) ∧
      to_size_t ret = data.length ∧
      (data.length ≤ INT_MAX → ret = (data.length : Int)) := by
  refine ⟨_, _, char_out_connected fuel k_malloc s data hconn hM1 hM hL1 hL hfuel, ?_,
    to_size_t_to_int hL, fun h => to_int_of_le h⟩
  simp [queued_frames]

/-- C2 at the 50-byte run `0 .. 49` with `bt_nus_mtu = 23` when the allocation
for the middle chunk fails: the chunks at offsets 0 and 46 are queued, 50 is
returned. -/
theorem char_out_allocation_failure_witness :
    ((send_enabled_cb 23 true .BT_NUS_SEND_STATUS_ENABLED State.init).ble_nus_connected > 0 ∧
      (send_enabled_cb 23 true .BT_NUS_SEND_STATUS_ENABLED State.init).bt_nus_mtu = 23) ∧
    (∃ (s1 : State) (ret : Int),
      char_out 3 (fun k => k != 1)
        (send_enabled_cb 23 true .BT_NUS_SEND_STATUS_ENABLED State.init)
        (List.range 50) (List.range 50).length = (s1, some ret) ∧
      s1.fifo_ble_tx_data =
        (send_enabled_cb 23 true .BT_NUS_SEND_STATUS_ENABLED State.init).fifo_ble_tx_data ++
        ((List.range (chunk_count (List.range 50).length
            (send_enabled_cb 23 true .BT_NUS_SEND_STATUS_ENABLED State.init).bt_nus_mtu)).filter
          (fun k => k != 1)).map
          (fun k => frame_of (nth_chunk
            (send_enabled_cb 23 true .BT_NUS_SEND_STATUS_ENABLED State.init).bt_nus_mtu
            (List.range 50) k)) ∧
      to_size_t ret = (List.range 50).length ∧
      ((List.range 50).length ≤ INT_MAX → ret = ((List.range 50).length : Int))) ∧
    (char_out 3 (fun k => k != 1)
        (send_enabled_cb 23 true .BT_NUS_SEND_STATUS_ENABLED State.init)
        (List.range 50) 50).1.fifo_ble_tx_data.map (fun f => (f.data.head?, f.len)) =
      [(some 78, 20), (some 0, 23), (some 46, 4)] ∧
    (char_out 3 (fun k => k != 1)
        (send_enabled_cb 23 true .BT_NUS_SEND_STATUS_ENABLED State.init)
        (List.range 50) 50).2 = some 50 :=
  ⟨by decide,
   char_out_allocation_failure 3 (fun k => k != 1)
    (send_enabled_cb 23 true .BT_NUS_SEND_STATUS_ENABLED State.init)
    (List.range 50) (by decide) (by decide) (by decide) (by decide) (by decide) (by decide),
   by decide, by decide⟩

/-- C3 (admission gating).  While `ble_nus_connected ≤ 0`, for every buffer,
every `size_t` length `L`, every `bt_nus_mtu`, every allocator and every amount
of fuel, `char_out` returns at once with the state, hence the queue, unchanged,
and the value returned stands for `L`: converted back to `size_t` it is `L`, and
it is the integer `L` whenever `L` fits the return type `int`. -/
theorem char_out_disconnected (fuel : Nat) (k_malloc : Nat → Bool) (s : State)
    (data : List Nat) (length : Nat)
    (hdisc : s.ble_nus_connected ≤ 0) (hL : length < SIZE_MOD) :
    ∃ ret : Int,
      char_out fuel k_malloc s data length = (s, some ret) ∧
      to_size_t ret = length ∧
      (length ≤ INT_MAX → ret = (length : Int)) := by
  refine ⟨to_int length, ?_, to_size_t_to_int hL, fun h => to_int_of_le h⟩
  unfold char_out
  simp only [gt_iff_lt, not_lt.2 hdisc, if_false]

/-- C3 at the start-up state, where `ble_nus_connected = 0`, for a 3-byte
buffer: nothing is queued and 3 is returned. -/
theorem char_out_disconnected_witness :
    (State.init.ble_nus_connected ≤ 0 ∧ 3 < SIZE_MOD ∧ 3 ≤ INT_MAX) ∧
    char_out 0 (fun _ => true) State.init [76, 79, 71] 3 = (State.init, some 3) :=
  ⟨by decide,
   Exists.elim
    (char_out_disconnected 0 (fun _ => true) State.init [76, 79, 71] 3 (by decide) (by decide))
    (fun _ h => by rw [h.1, h.2.2 (by decide)]; rfl)⟩

/-! ## The transmitter -/

/-- The loop equation of `while (i < 3 && 0 != bt_nus_send(...)) i++;`. -/
theorem retry_loop_unfold (bt_nus_send : Nat → Int) (buf : ble_data_t) (t : Thread) :
    retry_loop bt_nus_send buf t =
      if t.i < 3 then
        if 0 ≠ bt_nus_send t.calls then
          retry_loop bt_nus_send buf
            { t with calls := t.calls + 1, sent := t.sent ++ [buf], i := t.i + 1 }
        else { t with calls := t.calls + 1, sent := t.sent ++ [buf] }
      else t := by
  unfold retry_loop
  by_cases h : t.i < 3
  · have e : (3 - t.i).toNat = (3 - (t.i + 1)).toNat + 1 := by omega
    rw [e, retry_loop_turns]
  · have e : (3 - t.i).toNat = 0 := by omega
    rw [e, retry_loop_turns]
    simp only [h, if_false]

/-- The loop started with `i = 0` makes `attempts` calls, all on `buf`. -/
theorem retry_loop_from_zero (bt_nus_send : Nat → Int) (buf : ble_data_t) (t : Thread)
    (hi : t.i = 0) :
    (retry_loop bt_nus_send buf t).calls = t.calls + attempts bt_nus_send t.calls ∧
    (retry_loop bt_nus_send buf t).sent =
      t.sent ++ List.replicate (attempts bt_nus_send t.calls) buf ∧
    (retry_loop bt_nus_send buf t).freed = t.freed := by
  obtain ⟨i, calls, sent, freed⟩ := t
  simp only at hi
  subst hi
  unfold attempts
  by_cases h0 : bt_nus_send calls = 0
  · simp [retry_loop, retry_loop_turns, h0]
  · by_cases h1 : bt_nus_send (calls + 1) = 0
    · simp [retry_loop, retry_loop_turns, h0, h1, Ne.symm h0, List.replicate]
    · by_cases h2 : bt_nus_send (calls + 2) = 0
      · simp [retry_loop, retry_loop_turns, h0, h1, h2, Ne.symm h0, Ne.symm h1,
          List.replicate]
      · simp [retry_loop, retry_loop_turns, h0, h1, h2, Ne.symm h0, Ne.symm h1, Ne.symm h2,
          List.replicate]

/-- One turn of the transmitter loop entered with `i = 0` and a frame waiting. -/
theorem ble_logger_thread_iter_cons (bt_nus_send : Nat → Int) (buf : ble_data_t)
    (rest : List ble_data_t) (t : Thread) (hi : t.i = 0) :
    ble_logger_thread_iter bt_nus_send (buf :: rest, t) =
      some (rest,
        { i := 0,
          calls := t.calls + attempts bt_nus_send t.calls,
          sent := t.sent ++ List.replicate (attempts bt_nus_send t.calls) buf,
          freed := t.freed ++ [buf] }) := by
  obtain ⟨hc, hs, hf⟩ := retry_loop_from_zero bt_nus_send buf t hi
  simp [ble_logger_thread_iter, k_fifo_get, hc, hs, hf]

theorem attempts_bounds (bt_nus_send : Nat → Int) (n : Nat) :
    1 ≤ attempts bt_nus_send n ∧ attempts bt_nus_send n ≤ 3 := by
  unfold attempts
  split
  · omega
  · split <;> omega

/-- C4 (bounded retry).  A turn of the transmitter loop entered with `i = 0`
(as after `int i = 0;` and after every turn) on a queue with head `buf`
removes `buf`, calls `bt_nus_send` on it `a = attempts bt_nus_send t.calls`
times and on nothing else, frees it and leaves `i = 0`.  `a` is
`min(3, index of the first successful attempt)`: it lies between 1 and 3, every
attempt before the `a`-th failed, the `a`-th succeeded when `a < 3`, and `a = 3`
when the first three attempts all fail.  The next turn treats the next frame the
same way, counting its attempts afresh from the next call. -/
theorem bounded_retry (bt_nus_send : Nat → Int) (buf next : ble_data_t)
    (rest : List ble_data_t) (t : Thread) (hi : t.i = 0) :
    ble_logger_thread_iter bt_nus_send (buf :: rest, t) =
      some (rest,
        { i := 0,
          calls := t.calls + attempts bt_nus_send t.calls,
          sent := t.sent ++ List.replicate (attempts bt_nus_send t.calls) buf,
          freed := t.freed ++ [buf] }) ∧
    (1 ≤ attempts bt_nus_send t.calls ∧ attempts bt_nus_send t.calls ≤ 3) ∧
    (∀ j, j + 1 < attempts bt_nus_send t.calls → bt_nus_send (t.calls + j) ≠ 0) ∧
    (attempts bt_nus_send t.calls < 3 →
      bt_nus_send (t.calls + (attempts bt_nus_send t.calls - 1)) = 0) ∧
    ((∀ j, j < 3 → bt_nus_send (t.calls + j) ≠ 0) → attempts bt_nus_send t.calls = 3) ∧
    (ble_logger_thread_iter bt_nus_send (buf :: next :: rest, t)).bind
        (ble_logger_thread_iter bt_nus_send) =
      some (rest,
        { i := 0,
          calls := t.calls + attempts bt_nus_send t.calls +
            attempts bt_nus_send (t.calls + attempts bt_nus_send t.calls),
          sent := t.sent ++ List.replicate (attempts bt_nus_send t.calls) buf ++
            List.replicate
              (attempts bt_nus_send (t.calls + attempts bt_nus_send t.calls)) next,
          freed := t.freed ++ [buf, next] }) := by
  refine ⟨ble_logger_thread_iter_cons bt_nus_send buf rest t hi,
    attempts_bounds bt_nus_send t.calls, ?_, ?_, ?_, ?_⟩
  · intro j hj
    unfold attempts at hj
    by_cases h0 : bt_nus_send t.calls = 0
    · rw [if_pos h0] at hj; omega
    · rw [if_neg h0] at hj
      by_cases h1 : bt_nus_send (t.calls + 1) = 0
      · rw [if_pos h1] at hj
        have : j = 0 := by omega
        subst this
        simpa using h0
      · rw [if_neg h1] at hj
        have : j = 0 ∨ j = 1 := by omega
        rcases this with rfl | rfl
        · simpa using h0
        · exact h1
  · intro ha
    unfold attempts at ha ⊢
    by_cases h0 : bt_nus_send t.calls = 0
    · simp [h0]
    · by_cases h1 : bt_nus_send (t.calls + 1) = 0
      · simp [h0, h1]
      · simp [h0, h1] at ha
  · intro hall
    unfold attempts
    have h0 := hall 0 (by omega)
    have h1 := hall 1 (by omega)
    simp only [Nat.add_zero] at h0
    rw [if_neg h0, if_neg h1]
  · rw [ble_logger_thread_iter_cons bt_nus_send buf (next :: rest) t hi, Option.some_bind,
      ble_logger_thread_iter_cons bt_nus_send next rest _ rfl]
    simp

/-- C4 for a thread at its start and a queue of two frames when the first
three calls of `bt_nus_send` fail and the fourth succeeds: the first frame is
sent three times and freed, the second frame is then sent once. -/
theorem bounded_retry_witness :
    Thread.init.i = 0 ∧
    (ble_logger_thread_iter (fun n => if n < 3 then -1 else 0)
        ([⟨[1, 2], 2⟩, ⟨[3], 1⟩, ⟨[4], 1⟩], Thread.init)).bind
        (ble_logger_thread_iter (fun n => if n < 3 then -1 else 0)) =
      some ([⟨[4], 1⟩],
        { i := 0, calls := 4,
          sent := [⟨[1, 2], 2⟩, ⟨[1, 2], 2⟩, ⟨[1, 2], 2⟩, ⟨[3], 1⟩],
          freed := [⟨[1, 2], 2⟩, ⟨[3], 1⟩] }) :=
  ⟨rfl, (bounded_retry (fun n => if n < 3 then -1 else 0) ⟨[1, 2], 2⟩ ⟨[3], 1⟩ [⟨[4], 1⟩]
    Thread.init rfl).2.2.2.2.2.trans (by decide)⟩

/-! ## Order of transmission -/

theorem enqueued_cons (e : Event) (es : List Event) :
    enqueued (e :: es) = enqueued [e] ++ enqueued es := by
  cases e with
  | enqueue k_malloc data length => cases k_malloc <;> simp [enqueued]
  | transmit => simp [enqueued]

/-- One event keeps the calls grouped and adds the frame it enqueues, if any, at
the tail of the sequence "frames freed so far, then frames waiting". -/
theorem step_order (bt_nus_send : Nat → Int) (x : List ble_data_t × Thread) (e : Event)
    (hx : x.2.grouped) :
    (step bt_nus_send x e).2.grouped ∧
    (step bt_nus_send x e).2.freed ++ (step bt_nus_send x e).1 =
      x.2.freed ++ x.1 ++ enqueued [e] := by
  obtain ⟨fifo, t⟩ := x
  cases e with
  | enqueue k_malloc data length =>
    cases k_malloc <;>
      simp [step, append_data_to_fifo, k_fifo_put, enqueued, hx]
  | transmit =>
    cases fifo with
    | nil => simp [step, ble_logger_thread_iter, k_fifo_get, enqueued, hx]
    | cons buf rest =>
      obtain ⟨hi, counts, hlen, hb, hs⟩ := hx
      simp only at hi hlen hb hs
      simp only [step, ble_logger_thread_iter_cons bt_nus_send buf rest t hi, enqueued]
      refine ⟨⟨rfl, counts ++ [attempts bt_nus_send t.calls], ?_, ?_, ?_⟩, by simp⟩
      · simp [hlen]
      · intro c hc
        rcases List.mem_append.1 hc with h | h
        · exact hb c h
        · rw [List.mem_singleton] at h
          subst h
          exact attempts_bounds bt_nus_send t.calls
      · simp only
        rw [List.zipWith_append _ _ _ _ _ hlen, List.flatten_append, ← hs]
        simp

theorem run_order (bt_nus_send : Nat → Int) :
    ∀ (es : List Event) (x : List ble_data_t × Thread), x.2.grouped →
      (run bt_nus_send es x).2.grouped ∧
      (run bt_nus_send es x).2.freed ++ (run bt_nus_send es x).1 =
        x.2.freed ++ x.1 ++ enqueued es := by
  intro es
  induction es with
  | nil => intro x hx; simp [run, enqueued, hx]
  | cons e es ih =>
    intro x hx
    obtain ⟨h1, h2⟩ := step_order bt_nus_send x e hx
    obtain ⟨h3, h4⟩ := ih (step bt_nus_send x e) h1
    have hr : run bt_nus_send (e :: es) x = run bt_nus_send es (step bt_nus_send x e) := rfl
    rw [hr, enqueued_cons]
    refine ⟨h3, ?_⟩
    rw [h4, h2, List.append_assoc]

/-- Every pass of the loop of `char_out` reaches the queue through one
`append_data_to_fifo` call: the queue after any number of passes is the queue
after a sequence of `enqueue` events, which leave the transmitter alone. -/
theorem char_out_loop_as_events (bt_nus_send : Nat → Int) (M : Nat) (k_malloc : Nat → Bool) :
    ∀ (fuel n : Nat) (fifo : List ble_data_t) (data : List Nat) (length : Nat),
      ∃ es : List Event, (∀ e ∈ es, e ≠ Event.transmit) ∧
        ∀ t : Thread, run bt_nus_send es (fifo, t) =
          ((char_out_loop M k_malloc fuel n fifo data length).1, t) := by
  intro fuel
  induction fuel with
  | zero => intro n fifo data length; exact ⟨[], by simp, fun t => rfl⟩
  | succ fuel ih =>
    intro n fifo data length
    rw [char_out_loop]
    generalize (if length > M then M else length) = c
    obtain ⟨es, h1, h2⟩ := ih (n + 1) (append_data_to_fifo (k_malloc n) fifo data c).1
      (data.drop (append_data_to_fifo (k_malloc n) fifo data c).2.toNat)
      (size_t_sub length (to_size_t (append_data_to_fifo (k_malloc n) fifo data c).2))
    by_cases hz : size_t_sub length
        (to_size_t (append_data_to_fifo (k_malloc n) fifo data c).2) ≠ 0
    · rw [if_pos hz]
      refine ⟨Event.enqueue (k_malloc n) data c :: es, ?_, fun t => h2 t⟩
      intro e he
      rcases List.mem_cons.1 he with h | h
      · subst h; exact fun h => Event.noConfusion h
      · exact h1 e h
    · rw [if_neg hz]
      refine ⟨[Event.enqueue (k_malloc n) data c], ?_, fun t => rfl⟩
      intro e he
      rw [List.mem_singleton] at he
      subst he
      exact fun h => Event.noConfusion h

theorem run_append (bt_nus_send : Nat → Int) (es fs : List Event)
    (x : List ble_data_t × Thread) :
    run bt_nus_send (es ++ fs) x = run bt_nus_send fs (run bt_nus_send es x) := by
  unfold run
  rw [List.foldl_append]

/-- A transmitter turn on a non-empty queue, entered with `i = 0`, takes the
head of the queue, sends it `attempts` times and frees it. -/
theorem step_transmit_cons (bt_nus_send : Nat → Int) (buf : ble_data_t)
    (rest : List ble_data_t) (t : Thread) (hi : t.i = 0) :
    step bt_nus_send (buf :: rest, t) Event.transmit =
      (rest,
        { i := 0,
          calls := t.calls + attempts bt_nus_send t.calls,
          sent := t.sent ++ List.replicate (attempts bt_nus_send t.calls) buf,
          freed := t.freed ++ [buf] }) := by
  simp only [step, ble_logger_thread_iter_cons bt_nus_send buf rest t hi]

/-- As many transmitter turns as there are frames waiting (or more) empty the
queue: every waiting frame is freed, in queue order. -/
theorem run_drain (bt_nus_send : Nat → Int) :
    ∀ (n : Nat) (fifo : List ble_data_t) (t : Thread), t.grouped → fifo.length ≤ n →
      (run bt_nus_send (List.replicate n Event.transmit) (fifo, t)).1 = [] ∧
      (run bt_nus_send (List.replicate n Event.transmit) (fifo, t)).2.freed = t.freed ++ fifo ∧
      (run bt_nus_send (List.replicate n Event.transmit) (fifo, t)).2.grouped := by
  intro n
  induction n with
  | zero =>
    intro fifo t hg hn
    have : fifo = [] := List.length_eq_zero.1 (by omega)
    subst this
    exact ⟨rfl, by simp [run], hg⟩
  | succ n ih =>
    intro fifo t hg hn
    have hr : run bt_nus_send (List.replicate (n + 1) Event.transmit) (fifo, t) =
        run bt_nus_send (List.replicate n Event.transmit)
          (step bt_nus_send (fifo, t) Event.transmit) := rfl
    rw [hr]
    cases fifo with
    | nil =>
      have hs : step bt_nus_send (([] : List ble_data_t), t) Event.transmit = ([], t) := rfl
      rw [hs]
      exact ih [] t hg (by simp)
    | cons buf rest =>
      have hg1 := (step_order bt_nus_send (buf :: rest, t) Event.transmit hg).1
      rw [step_transmit_cons bt_nus_send buf rest t hg.1] at hg1 ⊢
      obtain ⟨h1, h2, h3⟩ := ih rest _ hg1 (by simpa using hn)
      refine ⟨h1, ?_, h3⟩
      rw [h2]
      simp

/-- C5 (FIFO ordering).  From an empty queue and a transmitter at the top of its
loop, for every interleaving `es` of `append_data_to_fifo` calls and
transmitter turns, and for every behaviour of `bt_nus_send`:
(1) the frames freed so far followed by the frames still queued are exactly the
frames enqueued, in enqueue order, and the calls of `bt_nus_send` are, in order,
one to three calls on each freed frame in turn;
(2) a further transmitter turn leaves everything as it is when the queue is
empty, and otherwise takes the head of the queue, calls `bt_nus_send` on it
`attempts` times (at least once) and frees it;
(3) once the transmitter has had as many further turns as frames were enqueued
(or more), the queue is empty, the frames freed are exactly the frames
enqueued, each once and in enqueue order, and the calls of `bt_nus_send` are one
to three calls on each of them in that order;
(4) `char_out` (however long it runs) and `send_enabled_cb` act on the queue as
sequences of such `append_data_to_fifo` calls. -/
theorem fifo_order (bt_nus_send : Nat → Int) (es : List Event) :
    ((run bt_nus_send es ([], Thread.init)).2.freed ++
        (run bt_nus_send es ([], Thread.init)).1 = enqueued es ∧
      (run bt_nus_send es ([], Thread.init)).2.i = 0 ∧
      ∃ counts : List Nat,
        counts.length = (run bt_nus_send es ([], Thread.init)).2.freed.length ∧
        (∀ c ∈ counts, 1 ≤ c ∧ c ≤ 3) ∧
        (run bt_nus_send es ([], Thread.init)).2.sent =
          (List.zipWith List.replicate counts
            (run bt_nus_send es ([], Thread.init)).2.freed).flatten) ∧
    (run bt_nus_send (es ++ [Event.transmit]) ([], Thread.init) =
      match (run bt_nus_send es ([], Thread.init)).1 with
      | [] => run bt_nus_send es ([], Thread.init)
      | buf :: rest =>
        (rest,
          { i := 0,
            calls := (run bt_nus_send es ([], Thread.init)).2.calls +
              attempts bt_nus_send (run bt_nus_send es ([], Thread.init)).2.calls,
            sent := (run bt_nus_send es ([], Thread.init)).2.sent ++
              List.replicate
                (attempts bt_nus_send (run bt_nus_send es ([], Thread.init)).2.calls) buf,
            freed := (run bt_nus_send es ([], Thread.init)).2.freed ++ [buf] })) ∧
    (∀ m : Nat,
      (run bt_nus_send (es ++ List.replicate ((enqueued es).length + m) Event.transmit)
        ([], Thread.init)).1 = [] ∧
      (run bt_nus_send (es ++ List.replicate ((enqueued es).length + m) Event.transmit)
        ([], Thread.init)).2.freed = enqueued es ∧
      ∃ counts : List Nat,
        counts.length = (enqueued es).length ∧
        (∀ c ∈ counts, 1 ≤ c ∧ c ≤ 3) ∧
        (run bt_nus_send (es ++ List.replicate ((enqueued es).length + m) Event.transmit)
          ([], Thread.init)).2.sent =
          (List.zipWith List.replicate counts (enqueued es)).flatten) ∧
    (∀ (fuel : Nat) (k_malloc : Nat → Bool) (s : State) (data : List Nat) (length : Nat),
      ∃ ps : List Event, (∀ e ∈ ps, e ≠ Event.transmit) ∧
        ∀ t : Thread, run bt_nus_send ps (s.fifo_ble_tx_data, t) =
          ((char_out fuel k_malloc s data length).1.fifo_ble_tx_data, t)) ∧
    (∀ (p : Nat) (ok : Bool) (status : bt_nus_send_status) (s : State),
      ∃ ps : List Event, (∀ e ∈ ps, e ≠ Event.transmit) ∧
        ∀ t : Thread, run bt_nus_send ps (s.fifo_ble_tx_data, t) =
          ((send_enabled_cb p ok status s).fifo_ble_tx_data, t)) := by
  have h0 : Thread.grouped (([], Thread.init) : List ble_data_t × Thread).2 :=
    ⟨rfl, [], rfl, by simp, rfl⟩
  obtain ⟨hg, hq⟩ := run_order bt_nus_send es ([], Thread.init) h0
  have hq1 : (run bt_nus_send es ([], Thread.init)).2.freed ++
      (run bt_nus_send es ([], Thread.init)).1 = enqueued es := by
    rw [hq]
    simp [Thread.init]
  refine ⟨⟨hq1, hg.1, hg.2⟩, ?_, ?_, ?_, ?_⟩
  · rw [run_append]
    have hr : ∀ x : List ble_data_t × Thread,
        run bt_nus_send [Event.transmit] x = step bt_nus_send x Event.transmit := fun _ => rfl
    rw [hr]
    rcases hx : run bt_nus_send es ([], Thread.init) with ⟨fifo, t⟩
    rw [hx] at hg
    cases fifo with
    | nil => rfl
    | cons buf rest => exact step_transmit_cons bt_nus_send buf rest t hg.1
  · intro m
    rw [run_append]
    rcases hx : run bt_nus_send es ([], Thread.init) with ⟨fifo, t⟩
    rw [hx] at hg hq1
    simp only at hg hq1
    have hlen : fifo.length ≤ (enqueued es).length + m := by
      rw [← hq1, List.length_append]
      omega
    obtain ⟨h1, h2, h3⟩ := run_drain bt_nus_send _ fifo t hg hlen
    rw [hq1] at h2
    refine ⟨h1, h2, ?_⟩
    obtain ⟨_, counts, hc1, hc2, hc3⟩ := h3
    rw [h2] at hc1 hc3
    exact ⟨counts, hc1, hc2, hc3⟩
  · intro fuel k_malloc s data length
    unfold char_out
    by_cases h : s.ble_nus_connected > 0
    · simp only [h, if_true]
      exact char_out_loop_as_events bt_nus_send s.bt_nus_mtu k_malloc fuel 0
        s.fifo_ble_tx_data data length
    · simp only [h, if_false]
      exact ⟨[], by simp, fun t => rfl⟩
  · intro p ok status s
    cases status with
    | BT_NUS_SEND_STATUS_ENABLED =>
      refine ⟨[Event.enqueue ok activation_msg 20], ?_, fun t => rfl⟩
      intro e he
      rw [List.mem_singleton] at he
      subst he
      exact fun h => Event.noConfusion h
    | BT_NUS_SEND_STATUS_DISABLED => exact ⟨[], by simp, fun t => rfl⟩

/-- C6 (code defect).  After `send_enabled_cb` (enabled, effective MTU 23) and
then `disconnected`, the state has `bt_nus_mtu = 0` and `ble_nus_connected = 1`.
In that state `char_out` on one byte has not returned after any number of
passes of its loop, whatever the allocator does, and when the allocations
succeed every pass has put one more frame with no payload on the queue. -/
theorem char_out_mtu_zero_never_returns (fuel : Nat) :
    (disconnected (send_enabled_cb 23 true .BT_NUS_SEND_STATUS_ENABLED State.init)).bt_nus_mtu
      = 0 ∧
    (disconnected
      (send_enabled_cb 23 true .BT_NUS_SEND_STATUS_ENABLED State.init)).ble_nus_connected = 1 ∧
    (∀ k_malloc : Nat → Bool,
      (char_out fuel k_malloc
        (disconnected (send_enabled_cb 23 true .BT_NUS_SEND_STATUS_ENABLED State.init))
        [65] 1).2 = none) ∧
    (char_out fuel (fun _ => true)
        (disconnected (send_enabled_cb 23 true .BT_NUS_SEND_STATUS_ENABLED State.init))
        [65] 1).1.fifo_ble_tx_data =
      (disconnected
        (send_enabled_cb 23 true .BT_NUS_SEND_STATUS_ENABLED State.init)).fifo_ble_tx_data ++
        List.replicate fuel { data := [], len := 0 } := by
  refine ⟨rfl, rfl, ?_, ?_⟩
  · intro k_malloc
    rw [char_out_mtu_zero fuel k_malloc _ [65] 1 (by decide) rfl (by decide) (by decide)]
  · rw [char_out_mtu_zero fuel _ _ [65] 1 (by decide) rfl (by decide) (by decide)]
    simp [List.map_const']

/-- C5 for four events (a frame queued, a transmitter turn, a failed
allocation, a second frame queued) when only the second call of `bt_nus_send`
succeeds: two more turns leave the queue empty and both frames freed, in the
order in which they were queued. -/
theorem fifo_order_witness :
    (run (fun n => if n = 1 then 0 else 1)
      ([Event.enqueue true [1, 2, 3] 2, Event.transmit, Event.enqueue false [9] 1,
          Event.enqueue true [7] 1] ++
        List.replicate
          ((enqueued [Event.enqueue true [1, 2, 3] 2, Event.transmit,
            Event.enqueue false [9] 1, Event.enqueue true [7] 1]).length + 0)
          Event.transmit)
      ([], Thread.init)).2.freed = [{ data := [1, 2], len := 2 }, { data := [7], len := 1 }] ∧
    run (fun n => if n = 1 then 0 else 1)
      [Event.enqueue true [1, 2, 3] 2, Event.transmit, Event.enqueue false [9] 1,
        Event.enqueue true [7] 1, Event.transmit, Event.transmit]
      ([], Thread.init) =
      ([], { i := 0, calls := 5,
             sent := [{ data := [1, 2], len := 2 }, { data := [1, 2], len := 2 },
                      { data := [7], len := 1 }, { data := [7], len := 1 },
                      { data := [7], len := 1 }],
             freed := [{ data := [1, 2], len := 2 }, { data := [7], len := 1 }] }) :=
  ⟨((fifo_order (fun n => if n = 1 then 0 else 1)
      [Event.enqueue true [1, 2, 3] 2, Event.transmit, Event.enqueue false [9] 1,
        Event.enqueue true [7] 1]).2.2.1 0).2.1.trans (by decide),
   by decide⟩

/-- C8, refuted as stated: `send_enabled_cb` (enabled) followed by
`disconnected` leaves `bt_nus_mtu = 0` but `ble_nus_connected = 1`, so the link
still counts as connected for admission. -/
theorem disconnected_leaves_link_admitted :
    (send_enabled_cb 23 true .BT_NUS_SEND_STATUS_ENABLED State.init).ble_nus_connected = 1 ∧
    (disconnected
      (send_enabled_cb 23 true .BT_NUS_SEND_STATUS_ENABLED State.init)).bt_nus_mtu = 0 ∧
    (disconnected
      (send_enabled_cb 23 true .BT_NUS_SEND_STATUS_ENABLED State.init)).ble_nus_connected = 1 ∧
    ¬ (disconnected
      (send_enabled_cb 23 true .BT_NUS_SEND_STATUS_ENABLED State.init)).ble_nus_connected ≤ 0 := by
  decide

/-- C8 as amended.  `disconnected` sets `bt_nus_mtu` to 0 and clears both
connection references; it leaves `ble_nus_connected` and the queue as they
were.  `connected`, `panic` and `char_out` leave `ble_nus_connected` as it was
too: the admission counter changes only in `send_enabled_cb`, which, within the
range of `int`, adds one on "enabled" and subtracts one otherwise, and the
decrement leaves `bt_nus_mtu` as it was. -/
theorem disconnected_resets_mtu_only (s : State) (p conn conn_err : Nat) (ok : Bool)
    (fuel : Nat) (k_malloc : Nat → Bool) (data : List Nat) (length : Nat)
    (fuel_p : Nat) (k_malloc_p : Nat → Bool) (pending : Option (List Nat)) :
    (disconnected s).bt_nus_mtu = 0 ∧
    (disconnected s).current_conn = none ∧
    (disconnected s).auth_conn = none ∧
    (disconnected s).ble_nus_connected = s.ble_nus_connected ∧
    (disconnected s).fifo_ble_tx_data = s.fifo_ble_tx_data ∧
    (connected conn conn_err s).ble_nus_connected = s.ble_nus_connected ∧
    (panic fuel_p k_malloc_p pending s).1.ble_nus_connected = s.ble_nus_connected ∧
    (char_out fuel k_malloc s data length).1.ble_nus_connected = s.ble_nus_connected ∧
    (s.ble_nus_connected < (INT_MAX : Int) →
      (send_enabled_cb p ok .BT_NUS_SEND_STATUS_ENABLED s).ble_nus_connected =
        s.ble_nus_connected + 1 ∧
      (send_enabled_cb p ok .BT_NUS_SEND_STATUS_ENABLED s).ble_nus_connected ≤ (INT_MAX : Int)) ∧
    (INT_MIN < s.ble_nus_connected →
      (send_enabled_cb p ok .BT_NUS_SEND_STATUS_DISABLED s).ble_nus_connected =
        s.ble_nus_connected - 1 ∧
      INT_MIN ≤ (send_enabled_cb p ok .BT_NUS_SEND_STATUS_DISABLED s).ble_nus_connected) ∧
    (send_enabled_cb p ok .BT_NUS_SEND_STATUS_DISABLED s).bt_nus_mtu = s.bt_nus_mtu := by
  refine ⟨rfl, rfl, rfl, rfl, rfl, ?_, (panic_fields fuel_p k_malloc_p pending s).2.2.1,
    (char_out_fields fuel k_malloc s data length).2.2.1, ?_, ?_, rfl⟩
  · unfold connected
    split <;> rfl
  · intro h
    have e : (send_enabled_cb p ok .BT_NUS_SEND_STATUS_ENABLED s).ble_nus_connected =
        s.ble_nus_connected + 1 := rfl
    rw [e]
    exact ⟨rfl, by omega⟩
  · intro h
    have e : (send_enabled_cb p ok .BT_NUS_SEND_STATUS_DISABLED s).ble_nus_connected =
        s.ble_nus_connected - 1 := rfl
    rw [e]
    exact ⟨rfl, by omega⟩

/-- C8 as amended, at the state reached from start-up by `send_enabled_cb`
(enabled): the counter is 1, inside the range of `int`; "enabled" again makes it
2, "disabled" makes it 0, and `disconnected` leaves it at 1. -/
theorem disconnected_resets_mtu_only_witness :
    ((send_enabled_cb 23 true .BT_NUS_SEND_STATUS_ENABLED State.init).ble_nus_connected <
        (INT_MAX : Int) ∧
      INT_MIN <
        (send_enabled_cb 23 true .BT_NUS_SEND_STATUS_ENABLED State.init).ble_nus_connected) ∧
    (send_enabled_cb 23 true .BT_NUS_SEND_STATUS_ENABLED
      (send_enabled_cb 23 true .BT_NUS_SEND_STATUS_ENABLED State.init)).ble_nus_connected = 2 ∧
    (send_enabled_cb 23 true .BT_NUS_SEND_STATUS_DISABLED
      (send_enabled_cb 23 true .BT_NUS_SEND_STATUS_ENABLED State.init)).ble_nus_connected = 0 ∧
    (disconnected
      (send_enabled_cb 23 true .BT_NUS_SEND_STATUS_ENABLED State.init)).ble_nus_connected = 1 :=
  ⟨by decide,
   ((disconnected_resets_mtu_only
      (send_enabled_cb 23 true .BT_NUS_SEND_STATUS_ENABLED State.init) 23 7 0 true
      1 (fun _ => true) [65] 1 1 (fun _ => true) none).2.2.2.2.2.2.2.2.1
      (by decide)).1.trans (by decide),
   ((disconnected_resets_mtu_only
      (send_enabled_cb 23 true .BT_NUS_SEND_STATUS_ENABLED State.init) 23 7 0 true
      1 (fun _ => true) [65] 1 1 (fun _ => true) none).2.2.2.2.2.2.2.2.2.1
      (by decide)).1.trans (by decide),
   (disconnected_resets_mtu_only
      (send_enabled_cb 23 true .BT_NUS_SEND_STATUS_ENABLED State.init) 23 7 0 true
      1 (fun _ => true) [65] 1 1 (fun _ => true) none).2.2.2.1.trans (by decide)⟩

/-- C9 (code defect).  `send_enabled_cb` stores the effective payload size `p`
in the `uint8_t` variable `bt_nus_mtu`, that is, it stores `p % 256`: an
effective size of 256 is stored as 0 and one of 300 as 44. -/
theorem send_enabled_cb_truncates_mtu (p : Nat) (ok : Bool) (s : State) :
    (send_enabled_cb p ok .BT_NUS_SEND_STATUS_ENABLED s).bt_nus_mtu = p % 256 ∧
    (send_enabled_cb 256 ok .BT_NUS_SEND_STATUS_ENABLED s).bt_nus_mtu = 0 ∧
    (send_enabled_cb 300 ok .BT_NUS_SEND_STATUS_ENABLED s).bt_nus_mtu = 44 :=
  ⟨rfl, rfl, rfl⟩

/-- C10 (code defect, the one of C9).  From start-up, `send_enabled_cb`
(enabled) with an effective payload size of 256 stores `bt_nus_mtu = 0` and
then queues the activation frame with `len = 20`: the frame is longer than the
`bt_nus_mtu` in force when it is created. -/
theorem activation_frame_exceeds_truncated_mtu :
    (send_enabled_cb 256 true .BT_NUS_SEND_STATUS_ENABLED State.init).bt_nus_mtu = 0 ∧
    (send_enabled_cb 256 true .BT_NUS_SEND_STATUS_ENABLED State.init).fifo_ble_tx_data =
      [{ data := [78, 85, 83, 32, 76, 111, 103, 103, 101, 114, 32,
                  65, 99, 116, 105, 118, 97, 116, 101, 100],
         len := 20 }] ∧
    ¬ ∀ f ∈ (send_enabled_cb 256 true .BT_NUS_SEND_STATUS_ENABLED State.init).fifo_ble_tx_data,
        f.len ≤ (send_enabled_cb 256 true .BT_NUS_SEND_STATUS_ENABLED State.init).bt_nus_mtu := by
  decide

end LogBackendNus
